import Mathlib

/-!
Verification of the CashMap envelope-budgeting core.

Dates are the ISO `YYYY-MM-DD` strings the code stores.  JavaScript compares
such strings by UTF-16 code units, which for these strings coincides with
chronological order; the comparators `dateLt`/`dateLe` below implement that
code-unit lexicographic order directly (structurally, so that the kernel can
evaluate them).  Money amounts are modelled as exact rationals (`ℚ`);
`parseFloat(x.toFixed(2))` is `round2` (round half up at the second decimal).
-/

namespace CashMap

/-- Code-unit lexicographic strict order on character lists, as JavaScript
`<` compares strings. -/
def charsLt : List Char → List Char → Bool
  | [], [] => false
  | [], _ :: _ => true
  | _ :: _, [] => false
  | a :: as, b :: bs =>
      if a.toNat < b.toNat then true
      else if b.toNat < a.toNat then false
      else charsLt as bs

/-- Code-unit lexicographic order on character lists, as JavaScript `<=`
compares strings. -/
def charsLe : List Char → List Char → Bool
  | [], _ => true
  | _ :: _, [] => false
  | a :: as, b :: bs =>
      if a.toNat < b.toNat then true
      else if b.toNat < a.toNat then false
      else charsLe as bs

def dateLt (a b : String) : Bool := charsLt a.data b.data

def dateLe (a b : String) : Bool := charsLe a.data b.data

lemma charsLe_refl (l : List Char) : charsLe l l = true := by
  induction l with
  | nil => rfl
  | cons a as ih => simp [charsLe, ih]

lemma charsLt_imp_charsLe {a b : List Char} (h : charsLt a b = true) :
    charsLe a b = true := by
  induction a generalizing b with
  | nil => cases b <;> rfl
  | cons x xs ih =>
      cases b with
      | nil => simp [charsLt] at h
      | cons y ys =>
          by_cases h1 : x.toNat < y.toNat
          · simp [charsLe, h1]
          · by_cases h2 : y.toNat < x.toNat
            · simp [charsLt, h1, h2] at h
            · simp [charsLt, h1, h2] at h
              simp [charsLe, h1, h2, ih h]

lemma charsLt_false_imp_charsLe {a b : List Char} (h : charsLt a b = false) :
    charsLe b a = true := by
  induction a generalizing b with
  | nil =>
      cases b with
      | nil => rfl
      | cons y ys => simp [charsLt] at h
  | cons x xs ih =>
      cases b with
      | nil => rfl
      | cons y ys =>
          by_cases h1 : x.toNat < y.toNat
          · simp [charsLt, h1] at h
          · by_cases h2 : y.toNat < x.toNat
            · simp [charsLe, h2]
            · simp [charsLt, h1, h2] at h
              simp [charsLe, h1, h2, ih h]

lemma charsLe_trans {a b c : List Char} (hab : charsLe a b = true)
    (hbc : charsLe b c = true) : charsLe a c = true := by
  induction a generalizing b c with
  | nil => rfl
  | cons x xs ih =>
      cases b with
      | nil => simp [charsLe] at hab
      | cons y ys =>
          cases c with
          | nil => simp [charsLe] at hbc
          | cons z zs =>
              by_cases h1 : x.toNat < y.toNat <;> by_cases h2 : y.toNat < z.toNat
              · simp [charsLe]
                omega
              · by_cases h3 : z.toNat < y.toNat
                · simp [charsLe, h2, h3] at hbc
                · have hyz : y.toNat = z.toNat := by omega
                  simp [charsLe]
                  omega
              · by_cases h3 : y.toNat < x.toNat
                · simp [charsLe, h1, h3] at hab
                · have hxy : x.toNat = y.toNat := by omega
                  simp [charsLe]
                  omega
              · by_cases h3 : y.toNat < x.toNat
                · simp [charsLe, h1, h3] at hab
                · by_cases h4 : z.toNat < y.toNat
                  · simp [charsLe, h2, h4] at hbc
                  · simp [charsLe, h1, h3] at hab
                    simp [charsLe, h2, h4] at hbc
                    have hxz : ¬ x.toNat < z.toNat ∧ ¬ z.toNat < x.toNat := by omega
                    simp [charsLe, hxz.1, hxz.2, ih hab hbc]

lemma dateLe_refl (a : String) : dateLe a a = true := charsLe_refl _

lemma dateLt_imp_dateLe {a b : String} (h : dateLt a b = true) : dateLe a b = true :=
  charsLt_imp_charsLe h

lemma dateLt_false_imp_dateLe {a b : String} (h : dateLt a b = false) :
    dateLe b a = true :=
  charsLt_false_imp_charsLe h

lemma dateLe_trans {a b c : String} (hab : dateLe a b = true)
    (hbc : dateLe b c = true) : dateLe a c = true :=
  charsLe_trans hab hbc

inductive TransactionType where
  | INCOME
  | EXPENSE
  | TRANSFER
deriving DecidableEq, Repr

inductive CategoryType where
  | expense
  | income
  | investment
deriving DecidableEq, Repr

structure ScheduledBudgetChange where
  id : String := ""
  date : String
  amount : ℚ
deriving DecidableEq, Repr

structure Category where
  id : String
  name : String := ""
  ctype : CategoryType
  monthlyBudget : ℚ := 0
  rollover : ℚ := 0
  color : String := ""
  startDate : Option String := none
  scheduledChanges : List ScheduledBudgetChange := []
  linkedPaymentIndex : Option Nat := none
deriving DecidableEq, Repr

structure Transaction where
  id : String
  date : String := ""
  amount : ℚ := 0
  description : String := ""
  categoryId : Option String := none
  accountId : Option String := none
  ttype : TransactionType
  parentTransactionId : Option String := none
  transferPeerId : Option String := none
deriving DecidableEq, Repr

/-- `parseFloat(x.toFixed(2))`: round to two decimals, ties going up. -/
def round2 (q : ℚ) : ℚ := (round (q * 100) : ℤ) / 100

/-- Descending insertion (stable) modelling the JavaScript
`sort((a, b) => new Date(b.date).getTime() - new Date(a.date).getTime())`. -/
def insertDesc (c : ScheduledBudgetChange) :
    List ScheduledBudgetChange → List ScheduledBudgetChange
  | [] => [c]
  | x :: xs => if dateLt x.date c.date then c :: x :: xs else x :: insertDesc c xs

def sortByDateDesc : List ScheduledBudgetChange → List ScheduledBudgetChange
  | [] => []
  | x :: xs => insertDesc x (sortByDateDesc xs)

/-- `getBudgetForDate` from the dashboard component: with a non-empty
scheduled-change list, sort it by date descending and take the first entry
dated on or before `dateStr`; otherwise the base monthly budget. -/
def getBudgetForDate (cat : Category) (dateStr : String) : ℚ :=
  if cat.scheduledChanges = [] then cat.monthlyBudget
  else
    match (sortByDateDesc cat.scheduledChanges).find? (fun c => dateLe c.date dateStr) with
    | some c => c.amount
    | none => cat.monthlyBudget

lemma mem_insertDesc {a c : ScheduledBudgetChange} {l : List ScheduledBudgetChange} :
    a ∈ insertDesc c l ↔ a = c ∨ a ∈ l := by
  induction l with
  | nil => simp [insertDesc]
  | cons x xs ih =>
      by_cases h : dateLt x.date c.date
      · simp [insertDesc, h]
      · simp [insertDesc, h, ih]
        tauto

/-- Sorted with dates non-increasing. -/
abbrev SortedDesc (l : List ScheduledBudgetChange) : Prop :=
  l.Pairwise (fun a b => dateLe b.date a.date = true)

lemma sortedDesc_insertDesc {c : ScheduledBudgetChange} {l : List ScheduledBudgetChange}
    (h : SortedDesc l) : SortedDesc (insertDesc c l) := by
  induction l with
  | nil => simp [insertDesc, SortedDesc]
  | cons x xs ih =>
      rcases List.pairwise_cons.mp h with ⟨hx, hxs⟩
      by_cases hlt : dateLt x.date c.date
      · simp only [insertDesc, hlt, if_pos]
        refine List.pairwise_cons.mpr ⟨?_, h⟩
        intro y hy
        rcases List.mem_cons.mp hy with rfl | hy'
        · exact dateLt_imp_dateLe hlt
        · exact dateLe_trans (hx y hy') (dateLt_imp_dateLe hlt)
      · simp only [insertDesc, hlt, if_neg, Bool.false_eq_true, not_false_iff, ite_false]
        refine List.pairwise_cons.mpr ⟨?_, ih hxs⟩
        intro y hy
        rcases mem_insertDesc.mp hy with rfl | hy'
        · exact dateLt_false_imp_dateLe (Bool.not_eq_true _ ▸ hlt)
        · exact hx y hy'

lemma sortedDesc_sortByDateDesc (l : List ScheduledBudgetChange) :
    SortedDesc (sortByDateDesc l) := by
  induction l with
  | nil => simp [sortByDateDesc, SortedDesc]
  | cons x xs ih => exact sortedDesc_insertDesc ih

lemma mem_sortByDateDesc {a : ScheduledBudgetChange} {l : List ScheduledBudgetChange} :
    a ∈ sortByDateDesc l ↔ a ∈ l := by
  induction l with
  | nil => simp [sortByDateDesc]
  | cons x xs ih => simp [sortByDateDesc, mem_insertDesc, ih]

lemma find?_sortedDesc_some {l : List ScheduledBudgetChange} {d : String}
    {c : ScheduledBudgetChange} (hs : SortedDesc l)
    (hf : l.find? (fun c => dateLe c.date d) = some c) :
    c ∈ l ∧ dateLe c.date d = true ∧
      ∀ c' ∈ l, dateLe c'.date d = true → dateLe c'.date c.date = true := by
  induction l with
  | nil => simp [List.find?] at hf
  | cons x xs ih =>
      rcases List.pairwise_cons.mp hs with ⟨hx, hxs⟩
      rw [List.find?_cons] at hf
      by_cases hxd : dateLe x.date d = true
      · rw [hxd] at hf
        obtain rfl : x = c := by injection hf
        refine ⟨List.mem_cons_self _ _, hxd, ?_⟩
        intro c' hc' _
        rcases List.mem_cons.mp hc' with rfl | hc''
        · exact dateLe_refl _
        · exact hx c' hc''
      · rw [Bool.not_eq_true] at hxd
        rw [hxd] at hf
        obtain ⟨hmem, hcd, hmax⟩ := ih hxs hf
        refine ⟨List.mem_cons_of_mem _ hmem, hcd, ?_⟩
        intro c' hc' hc'd
        rcases List.mem_cons.mp hc' with rfl | hc''
        · exact absurd hc'd (by simp [hxd])
        · exact hmax c' hc'' hc'd

/-- C3: for every category and as-of date, `getBudgetForDate` returns the
amount of a scheduled change of maximal date among those dated on or before
the as-of date, and the base `monthlyBudget` when no scheduled change
qualifies (empty schedule or schedule entirely in the future). -/
theorem C3_schedule_resolver (cat : Category) (dateStr : String) :
    ((cat.scheduledChanges.filter (fun c => dateLe c.date dateStr)) ≠ [] →
      ∃ c, c ∈ cat.scheduledChanges.filter (fun c => dateLe c.date dateStr) ∧
        (∀ c' ∈ cat.scheduledChanges.filter (fun c => dateLe c.date dateStr),
          dateLe c'.date c.date = true) ∧
        getBudgetForDate cat dateStr = c.amount) ∧
    ((cat.scheduledChanges.filter (fun c => dateLe c.date dateStr)) = [] →
      getBudgetForDate cat dateStr = cat.monthlyBudget) := by
  by_cases hempty : cat.scheduledChanges = []
  · constructor
    · intro hne
      exact absurd (by simp [hempty]) hne
    · intro _
      simp [getBudgetForDate, hempty]
  · rcases hfind : (sortByDateDesc cat.scheduledChanges).find?
        (fun c => dateLe c.date dateStr) with _ | c
    · have hnone : ∀ c' ∈ sortByDateDesc cat.scheduledChanges,
          ¬ (dateLe c'.date dateStr = true) := by
        intro c' hc'
        have := List.find?_eq_none.mp hfind c' hc'
        simpa using this
      have hfilter : cat.scheduledChanges.filter (fun c => dateLe c.date dateStr) = [] := by
        apply List.filter_eq_nil_iff.mpr
        intro c' hc'
        have := hnone c' (mem_sortByDateDesc.mpr hc')
        simpa using this
      constructor
      · intro hne; exact absurd hfilter hne
      · intro _
        unfold getBudgetForDate
        rw [if_neg hempty, hfind]
    · obtain ⟨hmem, hcd, hmax⟩ :=
        find?_sortedDesc_some (sortedDesc_sortByDateDesc _) hfind
      have hcmem : c ∈ cat.scheduledChanges.filter (fun c => dateLe c.date dateStr) := by
        simp only [List.mem_filter]
        exact ⟨mem_sortByDateDesc.mp hmem, hcd⟩
      have hval : getBudgetForDate cat dateStr = c.amount := by
        unfold getBudgetForDate
        rw [if_neg hempty, hfind]
      constructor
      · intro _
        refine ⟨c, hcmem, ?_, hval⟩
        intro c' hc'
        simp only [List.mem_filter] at hc'
        exact hmax c' (mem_sortByDateDesc.mpr hc'.1) hc'.2
      · intro hfilter
        rw [hfilter] at hcmem
        exact absurd hcmem (List.not_mem_nil c)

/-- Witness for C3 at the spec example: base 100, change A (2024-03-01, 150),
change B (2024-06-01, 200); as of 2024-04-01 the resolver returns the amount
of a maximal qualifying change. -/
theorem C3_schedule_resolver_witness :
    ∃ c, c ∈ ([⟨"a", "2024-03-01", 150⟩, ⟨"b", "2024-06-01", 200⟩] :
          List ScheduledBudgetChange).filter (fun c => dateLe c.date "2024-04-01") ∧
      (∀ c' ∈ ([⟨"a", "2024-03-01", 150⟩, ⟨"b", "2024-06-01", 200⟩] :
          List ScheduledBudgetChange).filter (fun c => dateLe c.date "2024-04-01"),
        dateLe c'.date c.date = true) ∧
      getBudgetForDate
        { id := "cat1", ctype := .expense, monthlyBudget := 100,
          scheduledChanges := [⟨"a", "2024-03-01", 150⟩, ⟨"b", "2024-06-01", 200⟩] }
        "2024-04-01" = c.amount :=
  (C3_schedule_resolver
    { id := "cat1", ctype := .expense, monthlyBudget := 100,
      scheduledChanges := [⟨"a", "2024-03-01", 150⟩, ⟨"b", "2024-06-01", 200⟩] }
    "2024-04-01").1 (by decide)

structure AllocationRule where
  paymentIndex : Nat
  percentage : ℚ
  amount : ℚ := 0
  name : Option String := none
  note : Option String := none
  isUncertain : Bool := false
deriving DecidableEq, Repr

/-- Per-category multiplier of `handleDistributeIncome` (current-month mode):
`rule.percentage / 100`, overridden to 1 or 0 for a category whose (truthy,
i.e. positive) `linkedPaymentIndex` matches / misses the rule's payment
index. -/
def multiplier (rule : AllocationRule) (cat : Category) : ℚ :=
  match cat.linkedPaymentIndex with
  | some idx =>
      if 0 < idx then (if idx = rule.paymentIndex then 1 else 0)
      else rule.percentage / 100
  | none => rule.percentage / 100

/-- A category's raw share: `budget * multiplier`. -/
def share (rule : AllocationRule) (cat : Category) (dateStr : String) : ℚ :=
  getBudgetForDate cat dateStr * multiplier rule cat

def potentialAllocation (rule : AllocationRule) (targets : List Category)
    (dateStr : String) : ℚ :=
  (targets.map (fun c => share rule c dateStr)).sum

/-- The common scale-down: `poolAmount / potentialAllocation` when the raw
shares exceed the pool, else 1. -/
def finalRatio (rule : AllocationRule) (targets : List Category) (dateStr : String)
    (pool : ℚ) : ℚ :=
  if potentialAllocation rule targets dateStr > pool
  then pool / potentialAllocation rule targets dateStr
  else 1

/-- Emission loop of the current-month mode: one INCOME transaction per
category whose final (scaled) share exceeds 0.01, amount rounded to two
decimals.  `ids` stands for the fresh `uuidv4()` ids. -/
def distributeCurrentAux (ids : Nat → String) (rule : AllocationRule)
    (dateStr : String) (ratio : ℚ) (parentId : Option String) :
    Nat → List Category → List Transaction
  | _, [] => []
  | i, cat :: rest =>
      let finalAmount := share rule cat dateStr * ratio
      if finalAmount > 1/100 then
        { id := ids i, date := dateStr, amount := round2 finalAmount,
          description :=
            (if multiplier rule cat = 1 then
              "Allocated: " ++ cat.name ++ " (100% via Linked Payment)"
            else
              "Allocated: " ++ cat.name ++ " (" ++ toString rule.percentage ++ "%)"),
          categoryId := some cat.id, ttype := .INCOME,
          parentTransactionId := parentId }
          :: distributeCurrentAux ids rule dateStr ratio parentId (i + 1) rest
      else distributeCurrentAux ids rule dateStr ratio parentId (i + 1) rest

/-- Current-month distribution of `handleDistributeIncome` (after the user
confirms the proportional scale-down when needed); in the source the targets
are the expense categories. -/
def distributeCurrent (ids : Nat → String) (rule : AllocationRule)
    (targets : List Category) (dateStr : String) (pool : ℚ)
    (parentId : Option String) : List Transaction :=
  distributeCurrentAux ids rule dateStr (finalRatio rule targets dateStr pool)
    parentId 0 targets

def sumAmounts (l : List Transaction) : ℚ := (l.map (·.amount)).sum

lemma round2_le_add (q : ℚ) : round2 q ≤ q + 1/200 := by
  unfold round2
  rw [round_eq]
  have h := Int.floor_le (q * 100 + 1/2)
  have h' : ((⌊q * 100 + 1/2⌋ : ℤ) : ℚ) ≤ q * 100 + 1/2 := h
  linarith

lemma multiplier_nonneg (rule : AllocationRule) (cat : Category)
    (hpct : 0 ≤ rule.percentage) : 0 ≤ multiplier rule cat := by
  unfold multiplier
  rcases cat.linkedPaymentIndex with _ | idx
  · positivity
  · dsimp only
    split
    · split <;> norm_num
    · positivity

lemma sumAmounts_distributeCurrentAux (ids : Nat → String) (rule : AllocationRule)
    (dateStr : String) (ratio : ℚ) (parentId : Option String) (i : Nat)
    (targets : List Category)
    (hnn : ∀ cat ∈ targets, 0 ≤ share rule cat dateStr * ratio) :
    sumAmounts (distributeCurrentAux ids rule dateStr ratio parentId i targets)
      ≤ (targets.map (fun c => share rule c dateStr * ratio)).sum
        + (distributeCurrentAux ids rule dateStr ratio parentId i targets).length
          * (1/200) := by
  induction targets generalizing i with
  | nil => simp [distributeCurrentAux, sumAmounts]
  | cons c cs ih =>
      have hc := hnn c (List.mem_cons_self _ _)
      have hcs : ∀ cat ∈ cs, 0 ≤ share rule cat dateStr * ratio :=
        fun cat h => hnn cat (List.mem_cons_of_mem _ h)
      by_cases h : share rule c dateStr * ratio > 1/100
      · simp only [distributeCurrentAux, h, if_pos, sumAmounts, List.map_cons,
          List.sum_cons, List.length_cons]
        have h1 := round2_le_add (share rule c dateStr * ratio)
        have h2 := ih (i + 1) hcs
        simp only [sumAmounts] at h2
        push_cast
        linarith
      · simp only [distributeCurrentAux, h, if_neg, not_false_iff, ite_false,
          List.map_cons, List.sum_cons]
        have h2 := ih (i + 1) hcs
        linarith

lemma mem_distributeCurrentAux_of (ids : Nat → String) (rule : AllocationRule)
    (dateStr : String) (ratio : ℚ) (parentId : Option String) (i : Nat)
    (targets : List Category) (cat : Category) (hmem : cat ∈ targets)
    (hgt : share rule cat dateStr * ratio > 1/100) :
    ∃ t ∈ distributeCurrentAux ids rule dateStr ratio parentId i targets,
      t.categoryId = some cat.id ∧
      t.amount = round2 (share rule cat dateStr * ratio) := by
  induction targets generalizing i with
  | nil => exact absurd hmem (List.not_mem_nil cat)
  | cons c cs ih =>
      rcases List.mem_cons.mp hmem with rfl | hmem'
      · simp only [distributeCurrentAux]
        rw [if_pos hgt]
        exact ⟨_, List.mem_cons_self _ _, rfl, rfl⟩
      · obtain ⟨t, ht, h1, h2⟩ := ih (i + 1) hmem'
        by_cases h : share rule c dateStr * ratio > 1/100
        · refine ⟨t, ?_, h1, h2⟩
          simp only [distributeCurrentAux]
          rw [if_pos h]
          exact List.mem_cons_of_mem _ ht
        · refine ⟨t, ?_, h1, h2⟩
          simp only [distributeCurrentAux]
          rw [if_neg h]
          exact ht

lemma mem_distributeCurrentAux_cases (ids : Nat → String) (rule : AllocationRule)
    (dateStr : String) (ratio : ℚ) (parentId : Option String) (i : Nat)
    (targets : List Category) (t : Transaction)
    (ht : t ∈ distributeCurrentAux ids rule dateStr ratio parentId i targets) :
    ∃ cat ∈ targets, t.categoryId = some cat.id ∧
      t.amount = round2 (share rule cat dateStr * ratio) ∧
      share rule cat dateStr * ratio > 1/100 := by
  induction targets generalizing i with
  | nil => simp [distributeCurrentAux] at ht
  | cons c cs ih =>
      by_cases h : share rule c dateStr * ratio > 1/100
      · simp only [distributeCurrentAux, h, if_pos, List.mem_cons] at ht
        rcases ht with rfl | ht'
        · exact ⟨c, List.mem_cons_self _ _, rfl, rfl, h⟩
        · obtain ⟨cat, hc, h1, h2, h3⟩ := ih (i + 1) ht'
          exact ⟨cat, List.mem_cons_of_mem _ hc, h1, h2, h3⟩
      · simp only [distributeCurrentAux, h, if_neg, not_false_iff, ite_false] at ht
        obtain ⟨cat, hc, h1, h2, h3⟩ := ih (i + 1) ht
        exact ⟨cat, List.mem_cons_of_mem _ hc, h1, h2, h3⟩

/-- C1: in current-month distribution, when the raw shares exceed the pool
every share is scaled by `pool / potentialAllocation`, otherwise shares are
unscaled; the emitted total never exceeds the pool beyond the two-decimal
rounding tolerance; every category whose (scaled) share clears the 0.01
epsilon receives exactly its scaled share; and every emitted transaction
belongs to a target category (no transaction is created for the surplus). -/
theorem C1_distribution_scale_down (ids : Nat → String) (rule : AllocationRule)
    (targets : List Category) (dateStr : String) (pool : ℚ)
    (parentId : Option String) (hpool : 0 ≤ pool)
    (hbudget : ∀ cat ∈ targets, 0 ≤ getBudgetForDate cat dateStr)
    (hpct : 0 ≤ rule.percentage) :
    sumAmounts (distributeCurrent ids rule targets dateStr pool parentId)
      ≤ pool + (distributeCurrent ids rule targets dateStr pool parentId).length
          * (1/200) ∧
    (potentialAllocation rule targets dateStr > pool →
      finalRatio rule targets dateStr pool
        = pool / potentialAllocation rule targets dateStr) ∧
    (potentialAllocation rule targets dateStr ≤ pool →
      finalRatio rule targets dateStr pool = 1) ∧
    (∀ cat ∈ targets,
      share rule cat dateStr * finalRatio rule targets dateStr pool > 1/100 →
      ∃ t ∈ distributeCurrent ids rule targets dateStr pool parentId,
        t.categoryId = some cat.id ∧
        t.amount = round2 (share rule cat dateStr
          * finalRatio rule targets dateStr pool)) ∧
    (∀ t ∈ distributeCurrent ids rule targets dateStr pool parentId,
      ∃ cat ∈ targets, t.categoryId = some cat.id) := by
  have hsh : ∀ cat ∈ targets, 0 ≤ share rule cat dateStr := by
    intro cat hc
    exact mul_nonneg (hbudget cat hc) (multiplier_nonneg rule cat hpct)
  have hratio : 0 ≤ finalRatio rule targets dateStr pool := by
    unfold finalRatio
    by_cases h : potentialAllocation rule targets dateStr > pool
    · simp only [h, if_pos]
      exact div_nonneg hpool (le_of_lt (lt_of_le_of_lt hpool h))
    · simp [h]
  have hsum : (targets.map (fun c => share rule c dateStr
      * finalRatio rule targets dateStr pool)).sum ≤ pool := by
    rw [List.sum_map_mul_right]
    by_cases h : potentialAllocation rule targets dateStr > pool
    · unfold finalRatio
      rw [if_pos h]
      have hp : potentialAllocation rule targets dateStr ≠ 0 :=
        ne_of_gt (lt_of_le_of_lt hpool h)
      rw [show (targets.map (fun c => share rule c dateStr)).sum
          = potentialAllocation rule targets dateStr from rfl]
      rw [mul_comm, div_mul_cancel₀ _ hp]
    · unfold finalRatio
      rw [if_neg h]
      rw [mul_one]
      exact not_lt.mp h
  refine ⟨?_, ?_, ?_, ?_, ?_⟩
  · have := sumAmounts_distributeCurrentAux ids rule dateStr
      (finalRatio rule targets dateStr pool) parentId 0 targets
      (fun cat hc => mul_nonneg (hsh cat hc) hratio)
    unfold distributeCurrent
    linarith
  · intro h
    unfold finalRatio
    rw [if_pos h]
  · intro h
    unfold finalRatio
    rw [if_neg (not_lt.mpr h)]
  · intro cat hc hgt
    exact mem_distributeCurrentAux_of ids rule dateStr _ parentId 0 targets cat hc hgt
  · intro t ht
    obtain ⟨cat, hc, h1, _, _⟩ := mem_distributeCurrentAux_cases ids rule dateStr _
      parentId 0 targets t ht
    exact ⟨cat, hc, h1⟩

/-- Witness for C1 at the spec scenario: two categories each with target 300
(Σ = 600), pool 300, a single 100% rule ⇒ each receives exactly 150. -/
theorem C1_distribution_scale_down_witness :
    ∃ t ∈ distributeCurrent (fun n => toString n) { paymentIndex := 1, percentage := 100 }
        [{ id := "a", ctype := .expense, monthlyBudget := 300 },
         { id := "b", ctype := .expense, monthlyBudget := 300 }]
        "2024-01-15" 300 none,
      t.categoryId = some "a" ∧ t.amount = 150 := by
  have hval : share { paymentIndex := 1, percentage := 100 }
      ({ id := "a", ctype := .expense, monthlyBudget := 300 } : Category) "2024-01-15"
      * finalRatio { paymentIndex := 1, percentage := 100 }
        [{ id := "a", ctype := .expense, monthlyBudget := 300 },
         { id := "b", ctype := .expense, monthlyBudget := 300 }]
        "2024-01-15" 300 = 150 := by
    norm_num [share, multiplier, getBudgetForDate, finalRatio, potentialAllocation]
  obtain ⟨t, ht, hcat, hamt⟩ :=
    (C1_distribution_scale_down (fun n => toString n) { paymentIndex := 1, percentage := 100 }
      [{ id := "a", ctype := .expense, monthlyBudget := 300 },
       { id := "b", ctype := .expense, monthlyBudget := 300 }]
      "2024-01-15" 300 none (by norm_num)
      (by
        intro cat hc
        rcases List.mem_cons.mp hc with rfl | hc
        · norm_num [getBudgetForDate]
        · rcases List.mem_cons.mp hc with rfl | hc
          · norm_num [getBudgetForDate]
          · simp at hc)
      (by norm_num)).2.2.2.1
      { id := "a", ctype := .expense, monthlyBudget := 300 }
      (List.mem_cons_self _ _) (by rw [hval]; norm_num)
  refine ⟨t, ht, hcat, ?_⟩
  rw [hamt, hval]
  norm_num [round2, round_eq]

/-- C2: under a rule `r`, a target category with a (positive) linked payment
index gets multiplier 1 — its full effective target as raw share — exactly
when the index matches `r.paymentIndex`, and multiplier 0 — no emitted
transaction at all — when it does not, regardless of `r.percentage`; a
category with no linked payment index gets multiplier `r.percentage / 100`. -/
theorem C2_linked_payment_override (ids : Nat → String) (rule : AllocationRule)
    (targets : List Category) (dateStr : String) (pool : ℚ)
    (parentId : Option String) (cat : Category) (hmem : cat ∈ targets)
    (hnodup : (targets.map (·.id)).Nodup) :
    (∀ i, cat.linkedPaymentIndex = some i → 0 < i →
      ((i = rule.paymentIndex → multiplier rule cat = 1 ∧
          share rule cat dateStr = getBudgetForDate cat dateStr) ∧
       (i ≠ rule.paymentIndex → multiplier rule cat = 0 ∧
          ∀ t ∈ distributeCurrent ids rule targets dateStr pool parentId,
            t.categoryId ≠ some cat.id))) ∧
    (cat.linkedPaymentIndex = none → multiplier rule cat = rule.percentage / 100) := by
  constructor
  · intro i hi hipos
    constructor
    · intro heq
      have hm : multiplier rule cat = 1 := by
        simp only [multiplier, hi]
        rw [if_pos hipos, if_pos heq]
      exact ⟨hm, by unfold share; rw [hm, mul_one]⟩
    · intro hne
      have hm : multiplier rule cat = 0 := by
        simp only [multiplier, hi]
        rw [if_pos hipos, if_neg hne]
      refine ⟨hm, ?_⟩
      intro t ht hcat
      obtain ⟨cat', hc', h1, _, h3⟩ := mem_distributeCurrentAux_cases ids rule dateStr _
        parentId 0 targets t ht
      have : cat' = cat := by
        apply List.inj_on_of_nodup_map hnodup hc' hmem
        rw [h1] at hcat
        injection hcat
      subst this
      rw [show share rule cat' dateStr = 0 by unfold share; rw [hm, mul_zero]] at h3
      norm_num at h3
  · intro hnone
    unfold multiplier
    rw [hnone]

/-- Witness for C2: a category linked to payment 2 receives nothing from a
run under a rule with payment index 1, whatever the rule's percentage. -/
theorem C2_linked_payment_override_witness :
    multiplier { paymentIndex := 1, percentage := 50 }
        { id := "linked", ctype := .expense, monthlyBudget := 200,
          linkedPaymentIndex := some 2 } = 0 ∧
      ∀ t ∈ distributeCurrent (fun n => toString n) { paymentIndex := 1, percentage := 50 }
          [{ id := "linked", ctype := .expense, monthlyBudget := 200,
             linkedPaymentIndex := some 2 },
           { id := "plain", ctype := .expense, monthlyBudget := 100 }]
          "2024-01-15" 1000 none,
        t.categoryId ≠ some "linked" :=
  ((C2_linked_payment_override (fun n => toString n) { paymentIndex := 1, percentage := 50 }
      [{ id := "linked", ctype := .expense, monthlyBudget := 200,
         linkedPaymentIndex := some 2 },
       { id := "plain", ctype := .expense, monthlyBudget := 100 }]
      "2024-01-15" 1000 none
      { id := "linked", ctype := .expense, monthlyBudget := 200,
        linkedPaymentIndex := some 2 }
      (by decide) (by decide)).1 2 rfl (by decide)).2 (by decide)

/-- Prefix test on character lists (`leadsChars p s`: `p` begins `s`),
modelling JavaScript `String.prototype.startsWith`. -/
def leadsChars : List Char → List Char → Bool
  | [], _ => true
  | _ :: _, [] => false
  | a :: as, b :: bs => a = b && leadsChars as bs

def strStartsWith (s p : String) : Bool := leadsChars p.data s.data

/-- Income already allocated to a category during the previous month:
INCOME transactions of that category whose date starts with the
`YYYY-MM` previous-month prefix. -/
def allocatedPrevMonth (txs : List Transaction) (catId : String)
    (prevMonthStr : String) : ℚ :=
  ((txs.filter (fun t => t.categoryId = some catId ∧
      t.ttype = TransactionType.INCOME ∧
      strStartsWith t.date prevMonthStr = true)).map (·.amount)).sum

/-- Gap-fill deficit: effective target at the previous month's end minus the
already-allocated income, floored at zero. -/
def deficitOf (txs : List Transaction) (cat : Category)
    (prevMonthStr prevMonthEndStr : String) : ℚ :=
  max 0 (getBudgetForDate cat prevMonthEndStr
    - allocatedPrevMonth txs cat.id prevMonthStr)

/-- The positive-deficit expense categories of the gap-fill mode. -/
def gapFillDeficits (txs : List Transaction) (cats : List Category)
    (prevMonthStr prevMonthEndStr : String) : List (Category × ℚ) :=
  ((cats.filter (fun c => c.ctype = CategoryType.expense)).map
    (fun c => (c, deficitOf txs c prevMonthStr prevMonthEndStr))).filter
      (fun p => 0 < p.2)

def gapFillTotalDeficit (txs : List Transaction) (cats : List Category)
    (prevMonthStr prevMonthEndStr : String) : ℚ :=
  ((gapFillDeficits txs cats prevMonthStr prevMonthEndStr).map (·.2)).sum

/-- Emission loop of the gap-fill mode: one INCOME transaction per deficit
entry whose scaled deficit exceeds 0.01, dated at the previous month's end. -/
def distributePreviousAux (ids : Nat → String) (dateStr : String) (ratio : ℚ) :
    Nat → List (Category × ℚ) → List Transaction
  | _, [] => []
  | i, (cat, deficit) :: rest =>
      let amount := deficit * ratio
      if amount > 1/100 then
        { id := ids i, date := dateStr, amount := round2 amount,
          description := "Gap Fill: " ++ cat.name, categoryId := some cat.id,
          ttype := .INCOME, parentTransactionId := none }
          :: distributePreviousAux ids dateStr ratio (i + 1) rest
      else distributePreviousAux ids dateStr ratio (i + 1) rest

/-- Gap-fill (previous-period) mode of `handleDistributeIncome`: deficits are
computed against the previous month, the pool is spread with ratio
`min(1, pool / totalDeficit)`, and no allocation rule is consulted.  When the
total deficit is zero the function aborts without emitting anything. -/
def distributePrevious (ids : Nat → String) (cats : List Category)
    (txs : List Transaction) (prevMonthStr prevMonthEndStr : String)
    (pool : ℚ) : List Transaction :=
  if gapFillTotalDeficit txs cats prevMonthStr prevMonthEndStr = 0 then []
  else
    distributePreviousAux ids prevMonthEndStr
      (min 1 (pool / gapFillTotalDeficit txs cats prevMonthStr prevMonthEndStr)) 0
      (gapFillDeficits txs cats prevMonthStr prevMonthEndStr)

lemma mem_distributePreviousAux_of (ids : Nat → String) (dateStr : String)
    (ratio : ℚ) (i : Nat) (pairs : List (Category × ℚ)) (cat : Category) (dq : ℚ)
    (hmem : (cat, dq) ∈ pairs) (hgt : dq * ratio > 1/100) :
    ∃ t ∈ distributePreviousAux ids dateStr ratio i pairs,
      t.categoryId = some cat.id ∧ t.amount = round2 (dq * ratio) := by
  induction pairs generalizing i with
  | nil => exact absurd hmem (List.not_mem_nil _)
  | cons p rest ih =>
      rcases List.mem_cons.mp hmem with rfl | hmem'
      · simp only [distributePreviousAux]
        rw [if_pos hgt]
        exact ⟨_, List.mem_cons_self _ _, rfl, rfl⟩
      · obtain ⟨t, ht, h1, h2⟩ := ih (i + 1) hmem'
        obtain ⟨pc, pd⟩ := p
        by_cases h : pd * ratio > 1/100
        · refine ⟨t, ?_, h1, h2⟩
          simp only [distributePreviousAux]
          rw [if_pos h]
          exact List.mem_cons_of_mem _ ht
        · refine ⟨t, ?_, h1, h2⟩
          simp only [distributePreviousAux]
          rw [if_neg h]
          exact ht

lemma mem_distributePreviousAux_cases (ids : Nat → String) (dateStr : String)
    (ratio : ℚ) (i : Nat) (pairs : List (Category × ℚ)) (t : Transaction)
    (ht : t ∈ distributePreviousAux ids dateStr ratio i pairs) :
    ∃ p ∈ pairs, t.categoryId = some p.1.id ∧
      t.amount = round2 (p.2 * ratio) ∧ p.2 * ratio > 1/100 := by
  induction pairs generalizing i with
  | nil => simp [distributePreviousAux] at ht
  | cons p rest ih =>
      obtain ⟨pc, pd⟩ := p
      by_cases h : pd * ratio > 1/100
      · simp only [distributePreviousAux] at ht
        rw [if_pos h] at ht
        rcases List.mem_cons.mp ht with rfl | ht'
        · exact ⟨(pc, pd), List.mem_cons_self _ _, rfl, rfl, h⟩
        · obtain ⟨q, hq, h1, h2, h3⟩ := ih (i + 1) ht'
          exact ⟨q, List.mem_cons_of_mem _ hq, h1, h2, h3⟩
      · simp only [distributePreviousAux] at ht
        rw [if_neg h] at ht
        obtain ⟨q, hq, h1, h2, h3⟩ := ih (i + 1) ht
        exact ⟨q, List.mem_cons_of_mem _ hq, h1, h2, h3⟩

/-- C8: in gap-fill mode each expense category's deficit is
`max 0 (target at previous month's end − income allocated during that month)`;
with a nonzero total deficit the pool is spread with ratio
`min(1, pool / totalDeficit)`: every category whose scaled deficit clears the
0.01 epsilon receives exactly its scaled deficit, and every emitted
transaction is such a scaled deficit — no percentage rule or linked-payment
multiplier enters (the emission depends on deficits alone). -/
theorem C8_gap_fill_mode (ids : Nat → String) (cats : List Category)
    (txs : List Transaction) (prevMonthStr prevMonthEndStr : String) (pool : ℚ)
    (hpool : 0 < pool)
    (htot : gapFillTotalDeficit txs cats prevMonthStr prevMonthEndStr ≠ 0) :
    (∀ cat, deficitOf txs cat prevMonthStr prevMonthEndStr
      = max 0 (getBudgetForDate cat prevMonthEndStr
          - allocatedPrevMonth txs cat.id prevMonthStr)) ∧
    (∀ cat ∈ cats.filter (fun c => c.ctype = CategoryType.expense),
      deficitOf txs cat prevMonthStr prevMonthEndStr
          * min 1 (pool / gapFillTotalDeficit txs cats prevMonthStr prevMonthEndStr)
          > 1/100 →
      ∃ t ∈ distributePrevious ids cats txs prevMonthStr prevMonthEndStr pool,
        t.categoryId = some cat.id ∧
        t.amount = round2 (deficitOf txs cat prevMonthStr prevMonthEndStr
          * min 1 (pool / gapFillTotalDeficit txs cats prevMonthStr prevMonthEndStr))) ∧
    (∀ t ∈ distributePrevious ids cats txs prevMonthStr prevMonthEndStr pool,
      ∃ cat ∈ cats.filter (fun c => c.ctype = CategoryType.expense),
        t.categoryId = some cat.id ∧
        t.amount = round2 (deficitOf txs cat prevMonthStr prevMonthEndStr
          * min 1 (pool / gapFillTotalDeficit txs cats prevMonthStr prevMonthEndStr))) := by
  have hpos : ∀ x ∈ (gapFillDeficits txs cats prevMonthStr prevMonthEndStr).map (·.2),
      0 < x := by
    intro x hx
    rcases List.mem_map.mp hx with ⟨p, hp, rfl⟩
    rcases List.mem_filter.mp hp with ⟨-, hpos'⟩
    simpa using hpos'
  have htotpos : 0 < gapFillTotalDeficit txs cats prevMonthStr prevMonthEndStr := by
    rcases lt_or_eq_of_le (List.sum_nonneg
        (fun x hx => le_of_lt (hpos x hx))) with h | h
    · exact h
    · exact absurd h.symm htot
  have hratiopos : 0 < min 1 (pool / gapFillTotalDeficit txs cats prevMonthStr prevMonthEndStr) := by
    apply lt_min
    · norm_num
    · positivity
  refine ⟨fun cat => rfl, ?_, ?_⟩
  · intro cat hcat hgt
    have hdefpos : 0 < deficitOf txs cat prevMonthStr prevMonthEndStr := by
      by_contra h
      push_neg at h
      have : deficitOf txs cat prevMonthStr prevMonthEndStr
          * min 1 (pool / gapFillTotalDeficit txs cats prevMonthStr prevMonthEndStr) ≤ 0 :=
        mul_nonpos_of_nonpos_of_nonneg h (le_of_lt hratiopos)
      linarith
    have hpmem : (cat, deficitOf txs cat prevMonthStr prevMonthEndStr)
        ∈ gapFillDeficits txs cats prevMonthStr prevMonthEndStr := by
      apply List.mem_filter.mpr
      refine ⟨List.mem_map.mpr ⟨cat, hcat, rfl⟩, by simpa using hdefpos⟩
    have := mem_distributePreviousAux_of ids prevMonthEndStr
      (min 1 (pool / gapFillTotalDeficit txs cats prevMonthStr prevMonthEndStr)) 0
      (gapFillDeficits txs cats prevMonthStr prevMonthEndStr) cat
      (deficitOf txs cat prevMonthStr prevMonthEndStr) hpmem hgt
    unfold distributePrevious
    rw [if_neg htot]
    exact this
  · intro t ht
    unfold distributePrevious at ht
    rw [if_neg htot] at ht
    obtain ⟨p, hp, h1, h2, -⟩ := mem_distributePreviousAux_cases _ _ _ _ _ _ ht
    rcases List.mem_filter.mp hp with ⟨hpm, -⟩
    rcases List.mem_map.mp hpm with ⟨cat, hcat, rfl⟩
    exact ⟨cat, hcat, h1, h2⟩

/-- Witness for C8: one expense category with target 400, nothing yet
allocated, pool 100 ⇒ the gap fill pays it `round2 (400 * 1/4) = 100`. -/
theorem C8_gap_fill_mode_witness :
    ∃ t ∈ distributePrevious (fun n => toString n)
        [{ id := "g", ctype := .expense, monthlyBudget := 400 }] []
        "2024-03" "2024-03-31" 100,
      t.categoryId = some "g" ∧ t.amount = 100 := by
  have hdef : deficitOf [] { id := "g", ctype := .expense, monthlyBudget := 400 }
      "2024-03" "2024-03-31" = 400 := by
    norm_num [deficitOf, allocatedPrevMonth, getBudgetForDate]
  have htot : gapFillTotalDeficit []
      [{ id := "g", ctype := .expense, monthlyBudget := 400 }]
      "2024-03" "2024-03-31" = 400 := by
    norm_num [gapFillTotalDeficit, gapFillDeficits, hdef]
  obtain ⟨t, ht, h1, h2⟩ :=
    (C8_gap_fill_mode (fun n => toString n)
      [{ id := "g", ctype := .expense, monthlyBudget := 400 }] []
      "2024-03" "2024-03-31" 100 (by norm_num) (by rw [htot]; norm_num)).2.1
      { id := "g", ctype := .expense, monthlyBudget := 400 }
      (by simp)
      (by rw [hdef, htot]; norm_num)
  refine ⟨t, ht, h1, ?_⟩
  rw [h2, hdef, htot]
  norm_num [round2, round_eq]

/-- Cascade delete of the dashboard component: remove the transaction with
the given id together with every transaction whose `parentTransactionId`
equals that id. -/
def deleteTransaction (txs : List Transaction) (id : String) : List Transaction :=
  txs.filter (fun t =>
    ¬ t.id ∈ id :: (txs.filter
      (fun u => u.parentTransactionId = some id)).map (·.id))

/-- The (truthy) transfer peer of a TRANSFER transaction, as the set of
extra ids the Transactions-page delete also removes. -/
def transferPeerIds (tx0 : Transaction) : List String :=
  if tx0.ttype = TransactionType.TRANSFER then
    match tx0.transferPeerId with
    | some p => if p = "" then [] else [p]
    | none => []
  else []

/-- Cascade delete of the Transactions page: children as above, plus the
transfer peer when the deleted transaction is a TRANSFER; a missing id is a
no-op. -/
def deleteTransactionTx (txs : List Transaction) (id : String) : List Transaction :=
  match txs.find? (fun t => t.id = id) with
  | none => txs
  | some txToDelete =>
      txs.filter (fun t =>
        ¬ t.id ∈ id :: ((txs.filter
          (fun u => u.parentTransactionId = some id)).map (·.id)
            ++ transferPeerIds txToDelete))

lemma mem_transferPeerIds_iff (tx0 : Transaction) (x : String) :
    x ∈ transferPeerIds tx0 ↔
      tx0.ttype = TransactionType.TRANSFER ∧ tx0.transferPeerId = some x ∧ x ≠ "" := by
  unfold transferPeerIds
  by_cases htr : tx0.ttype = TransactionType.TRANSFER
  · rw [if_pos htr]
    rcases hpeer : tx0.transferPeerId with _ | p
    · simp [htr]
    · dsimp only
      by_cases hp : p = ""
      · subst hp
        rw [if_pos rfl]
        simp only [List.not_mem_nil, false_iff]
        rintro ⟨-, h, hne⟩
        rw [Option.some_inj] at h
        exact hne h.symm
      · rw [if_neg hp]
        simp only [List.mem_singleton]
        constructor
        · rintro rfl
          exact ⟨htr, rfl, hp⟩
        · rintro ⟨-, h, -⟩
          rw [Option.some_inj] at h
          exact h.symm
  · simp [htr]

/-- C7 counterexample: on the Transactions page, deleting a TRANSFER
transaction also removes its transfer peer — a transaction that is neither
the deleted one nor one of its children. -/
theorem C7_delete_cascade_counterexample :
    ({ id := "b", ttype := .TRANSFER, transferPeerId := some "a" } : Transaction)
        ∉ deleteTransactionTx
          [{ id := "a", ttype := .TRANSFER, transferPeerId := some "b" },
           { id := "b", ttype := .TRANSFER, transferPeerId := some "a" }] "a" ∧
    ({ id := "b", ttype := .TRANSFER, transferPeerId := some "a" } : Transaction).id ≠ "a" ∧
    ({ id := "b", ttype := .TRANSFER, transferPeerId := some "a" } : Transaction).parentTransactionId
      ≠ some "a" ∧
    ({ id := "b", ttype := .TRANSFER, transferPeerId := some "a" } : Transaction)
      ∈ [{ id := "a", ttype := .TRANSFER, transferPeerId := some "b" },
         { id := "b", ttype := .TRANSFER, transferPeerId := some "a" }] := by
  refine ⟨?_, by decide, by decide, by decide⟩
  decide

/-- C7 (amended): with ledger ids unique, the dashboard delete removes
exactly the given id and the transactions parented to it; the
Transactions-page delete removes exactly those and, when the deleted
transaction is a TRANSFER, additionally its (non-empty) transfer peer id. -/
theorem C7_delete_cascade_amended (txs : List Transaction) (id : String)
    (hnodup : (txs.map (·.id)).Nodup) :
    (∀ t ∈ txs, (t ∈ deleteTransaction txs id
      ↔ t.id ≠ id ∧ t.parentTransactionId ≠ some id)) ∧
    (∀ tx0, txs.find? (fun t => t.id = id) = some tx0 →
      ∀ t ∈ txs, (t ∈ deleteTransactionTx txs id
        ↔ t.id ≠ id ∧ t.parentTransactionId ≠ some id ∧
          ¬ (tx0.ttype = TransactionType.TRANSFER ∧
             tx0.transferPeerId = some t.id ∧ t.id ≠ ""))) := by
  have hchild : ∀ t ∈ txs,
      (t.id ∈ (txs.filter (fun u => u.parentTransactionId = some id)).map (·.id)
        ↔ t.parentTransactionId = some id) := by
    intro t ht
    constructor
    · intro h
      rcases List.mem_map.mp h with ⟨c, hcf, hcid⟩
      rcases List.mem_filter.mp hcf with ⟨hcmem, hcp⟩
      have : c = t := List.inj_on_of_nodup_map hnodup hcmem ht hcid
      subst this
      simpa using hcp
    · intro h
      exact List.mem_map.mpr ⟨t, List.mem_filter.mpr ⟨ht, by simpa using h⟩, rfl⟩
  constructor
  · intro t ht
    unfold deleteTransaction
    rw [List.mem_filter]
    simp only [decide_eq_true_eq, List.mem_cons, ht, true_and]
    rw [not_or, hchild t ht]
  · intro tx0 hfind t ht
    unfold deleteTransactionTx
    rw [hfind]
    rw [List.mem_filter]
    simp only [decide_eq_true_eq, List.mem_cons, List.mem_append, ht, true_and]
    rw [not_or, not_or, hchild t ht, mem_transferPeerIds_iff]

/-- Witness for C7 (amended): deleting root "r" keeps the unrelated "x" and
removes the child "c". -/
theorem C7_delete_cascade_amended_witness :
    ({ id := "x", ttype := .EXPENSE } : Transaction)
      ∈ deleteTransaction
        [{ id := "r", ttype := .EXPENSE },
         { id := "c", ttype := .INCOME, parentTransactionId := some "r" },
         { id := "x", ttype := .EXPENSE }] "r" ∧
    ({ id := "c", ttype := .INCOME, parentTransactionId := some "r" } : Transaction)
      ∉ deleteTransaction
        [{ id := "r", ttype := .EXPENSE },
         { id := "c", ttype := .INCOME, parentTransactionId := some "r" },
         { id := "x", ttype := .EXPENSE }] "r" := by
  have h := (C7_delete_cascade_amended
    [{ id := "r", ttype := .EXPENSE },
     { id := "c", ttype := .INCOME, parentTransactionId := some "r" },
     { id := "x", ttype := .EXPENSE }] "r" (by decide)).1
  constructor
  · exact (h { id := "x", ttype := .EXPENSE } (by decide)).mpr (by decide)
  · intro hmem
    have := (h { id := "c", ttype := .INCOME, parentTransactionId := some "r" }
      (by decide)).mp hmem
    exact this.2 (by decide)

/-- Children emitted by the Transactions-page funding reconciler: per source
with a positive amount, a negative-amount debit from the source envelope and
a matching credit to the target's category, both parented to the target. -/
def fundingChildrenAux (ids : Nat → String) (cats : List Category)
    (fundingTx : Transaction) : Nat → List (String × ℚ) → List Transaction
  | _, [] => []
  | i, (sourceCatId, amount) :: rest =>
      if amount ≤ 0 then fundingChildrenAux ids cats fundingTx (i + 1) rest
      else
        { id := ids (2 * i), date := fundingTx.date,
          description := "Covering: " ++ fundingTx.description,
          amount := -amount, categoryId := some sourceCatId,
          ttype := .INCOME, parentTransactionId := some fundingTx.id }
        :: { id := ids (2 * i + 1), date := fundingTx.date,
             description := "Funded from: " ++
               (match cats.find? (fun c => c.id = sourceCatId) with
                | some c => c.name
                | none => "undefined"),
             amount := amount, categoryId := fundingTx.categoryId,
             ttype := .INCOME, parentTransactionId := some fundingTx.id }
        :: fundingChildrenAux ids cats fundingTx (i + 1) rest

/-- `executeFunding` (Transactions page, clean-slate variant): drop every
transaction parented to the target, then append the fresh funding children.
Without a target category the handler returns untouched. -/
def executeFunding (ids : Nat → String) (cats : List Category)
    (txs : List Transaction) (fundingTx : Transaction)
    (sources : List (String × ℚ)) : List Transaction :=
  match fundingTx.categoryId with
  | none => txs
  | some _ =>
      (txs.filter (fun t => ¬ t.parentTransactionId = some fundingTx.id))
        ++ fundingChildrenAux ids cats fundingTx 0 sources

/-- The (category, amount) view of the children of a given parent id. -/
def childPairs (l : List Transaction) (pid : String) : List (Option String × ℚ) :=
  (l.filter (fun t => t.parentTransactionId = some pid)).map
    (fun t => (t.categoryId, t.amount))

lemma filter_parent_fundingChildrenAux (ids : Nat → String) (cats : List Category)
    (fundingTx : Transaction) (i : Nat) (sources : List (String × ℚ)) :
    (fundingChildrenAux ids cats fundingTx i sources).filter
      (fun t => t.parentTransactionId = some fundingTx.id)
      = fundingChildrenAux ids cats fundingTx i sources := by
  induction sources generalizing i with
  | nil => rfl
  | cons s rest ih =>
      obtain ⟨scat, amt⟩ := s
      by_cases h : amt ≤ 0
      · simp only [fundingChildrenAux]
        rw [if_pos h]
        exact ih (i + 1)
      · simp only [fundingChildrenAux]
        rw [if_neg h]
        rw [List.filter_cons, List.filter_cons]
        rw [if_pos (by simp), if_pos (by simp)]
        rw [ih (i + 1)]

lemma pairs_fundingChildrenAux_indep (ids ids' : Nat → String) (cats : List Category)
    (fundingTx : Transaction) (i i' : Nat) (sources : List (String × ℚ)) :
    (fundingChildrenAux ids cats fundingTx i sources).map
        (fun t => (t.categoryId, t.amount))
      = (fundingChildrenAux ids' cats fundingTx i' sources).map
        (fun t => (t.categoryId, t.amount)) := by
  induction sources generalizing i i' with
  | nil => rfl
  | cons s rest ih =>
      obtain ⟨scat, amt⟩ := s
      by_cases h : amt ≤ 0
      · simp only [fundingChildrenAux]
        rw [if_pos h, if_pos h]
        exact ih (i + 1) (i' + 1)
      · simp only [fundingChildrenAux]
        rw [if_neg h, if_neg h]
        simp only [List.map_cons]
        rw [ih (i + 1) (i' + 1)]

lemma childPairs_executeFunding (ids : Nat → String) (cats : List Category)
    (txs : List Transaction) (fundingTx : Transaction)
    (sources : List (String × ℚ)) (c : String)
    (hc : fundingTx.categoryId = some c) :
    childPairs (executeFunding ids cats txs fundingTx sources) fundingTx.id
      = (fundingChildrenAux ids cats fundingTx 0 sources).map
        (fun t => (t.categoryId, t.amount)) := by
  unfold executeFunding
  rw [hc]
  unfold childPairs
  rw [List.filter_append]
  have h1 : (txs.filter (fun t => ¬ t.parentTransactionId = some fundingTx.id)).filter
      (fun t => t.parentTransactionId = some fundingTx.id) = [] := by
    rw [List.filter_filter]
    apply List.filter_eq_nil_iff.mpr
    intro t _
    simp
  rw [h1, filter_parent_fundingChildrenAux]
  rfl

/-- C5: re-funding is idempotent in effect — running `executeFunding` twice
with the same target and source map leaves the same child (category, amount)
list as running it once, because all transactions parented to the target are
removed before the fresh children are inserted. -/
theorem C5_refunding_idempotent (ids1 ids2 : Nat → String) (cats : List Category)
    (txs : List Transaction) (fundingTx : Transaction)
    (sources : List (String × ℚ)) :
    childPairs (executeFunding ids2 cats
        (executeFunding ids1 cats txs fundingTx sources) fundingTx sources)
      fundingTx.id
      = childPairs (executeFunding ids1 cats txs fundingTx sources) fundingTx.id := by
  rcases hc : fundingTx.categoryId with _ | c
  · unfold executeFunding
    rw [hc]
  · rw [childPairs_executeFunding ids2 cats _ fundingTx sources c hc,
      childPairs_executeFunding ids1 cats txs fundingTx sources c hc]
    exact pairs_fundingChildrenAux_indep ids2 ids1 cats fundingTx 0 0 sources

lemma charsLt_eq_not_charsLe (a b : List Char) : charsLt a b = !charsLe b a := by
  induction a generalizing b with
  | nil => cases b <;> rfl
  | cons x xs ih =>
      cases b with
      | nil => rfl
      | cons y ys =>
          simp only [charsLt, charsLe]
          by_cases h1 : x.toNat < y.toNat
          · have h2 : ¬ y.toNat < x.toNat := by omega
            simp [h1, h2]
          · by_cases h2 : y.toNat < x.toNat
            · simp [h1, h2]
            · simp [h1, h2, ih ys]

lemma dateLt_eq_not_dateLe (a b : String) : dateLt a b = !dateLe b a :=
  charsLt_eq_not_charsLe a.data b.data

/-- The legacy internal marker descriptions excluded from gross income. -/
def legacySystemTx (desc : String) : Bool :=
  desc = "Funds Distributed to Envelopes" || desc = "Unallocated Remainder"
    || desc = "Filled Envelopes"

/-- The transaction is tagged to an existing income-type category. -/
def isIncomeTypeTagged (cats : List Category) (t : Transaction) : Bool :=
  match t.categoryId with
  | none => false
  | some cid =>
      match cats.find? (fun c => c.id = cid) with
      | some c => c.ctype = CategoryType.income
      | none => false

/-- The transaction is tagged to an existing expense- or investment-type
category. -/
def isExpInvTagged (cats : List Category) (t : Transaction) : Bool :=
  match t.categoryId with
  | none => false
  | some cid =>
      match cats.find? (fun c => c.id = cid) with
      | some c => c.ctype = CategoryType.expense || c.ctype = CategoryType.investment
      | none => false

/-- Gross-income filter of the dashboard pool computation: income dated at or
before the view month's end, not a legacy marker, uncategorized or tagged to
an income-type category. -/
def isGrossIncomeTx (cats : List Category) (endOfViewMonthStr : String)
    (t : Transaction) : Bool :=
  if t.ttype ≠ TransactionType.INCOME then false
  else if dateLt endOfViewMonthStr t.date then false
  else if legacySystemTx t.description then false
  else match t.categoryId with
    | none => true
    | some cid =>
        match cats.find? (fun c => c.id = cid) with
        | some c => c.ctype = CategoryType.income
        | none => false

/-- Allocated-funds filter: income dated at or before the view month's end
tagged to an expense or investment category. -/
def isAllocatedTx (cats : List Category) (endOfViewMonthStr : String)
    (t : Transaction) : Bool :=
  if t.ttype ≠ TransactionType.INCOME then false
  else if dateLt endOfViewMonthStr t.date then false
  else match t.categoryId with
    | none => false
    | some cid =>
        match cats.find? (fun c => c.id = cid) with
        | some c => c.ctype = CategoryType.expense || c.ctype = CategoryType.investment
        | none => false

/-- Uncategorized-expense filter: expense with no category dated at or before
the view month's end. -/
def isUncategorizedExpenseTx (endOfViewMonthStr : String) (t : Transaction) : Bool :=
  decide (t.ttype = TransactionType.EXPENSE) && decide (t.categoryId = none)
    && dateLe t.date endOfViewMonthStr

def sumAmountsBy (p : Transaction → Bool) (txs : List Transaction) : ℚ :=
  ((txs.filter p).map (·.amount)).sum

/-- `totalUnallocatedAvailable` ("Available to Budget") of the dashboard
component: opening balance plus gross income, minus allocated income, minus
uncategorized expenses, all restricted to dates at or before the view
month's end. -/
def totalUnallocatedAvailable (txs : List Transaction) (cats : List Category)
    (endOfViewMonthStr : String) (openingBalance : ℚ) : ℚ :=
  openingBalance + sumAmountsBy (isGrossIncomeTx cats endOfViewMonthStr) txs
    - sumAmountsBy (isAllocatedTx cats endOfViewMonthStr) txs
    - sumAmountsBy (isUncategorizedExpenseTx endOfViewMonthStr) txs

/-- Modelled from the claim's words (C4, as stated — no date restriction):
openingBalance plus income that is uncategorized or income-tagged (legacy
markers excluded), minus income tagged to expense/investment, minus
uncategorized expenses, over the whole transaction list. -/
def specUnallocatedPool (txs : List Transaction) (cats : List Category)
    (openingBalance : ℚ) : ℚ :=
  openingBalance
    + ((txs.filter (fun t => t.ttype = TransactionType.INCOME ∧
        legacySystemTx t.description = false ∧
        (t.categoryId = none ∨ isIncomeTypeTagged cats t = true))).map (·.amount)).sum
    - ((txs.filter (fun t => t.ttype = TransactionType.INCOME ∧
        isExpInvTagged cats t = true)).map (·.amount)).sum
    - ((txs.filter (fun t => t.ttype = TransactionType.EXPENSE ∧
        t.categoryId = none)).map (·.amount)).sum

/-- Per-transaction contribution to the pool, following the claim's wording
amended with the view-month date restriction. -/
def specPoolContribution (cats : List Category) (endOfViewMonthStr : String)
    (t : Transaction) : ℚ :=
  (if t.ttype = TransactionType.INCOME ∧ legacySystemTx t.description = false ∧
      (t.categoryId = none ∨ isIncomeTypeTagged cats t = true) ∧
      dateLe t.date endOfViewMonthStr = true
    then t.amount else 0)
  - (if t.ttype = TransactionType.INCOME ∧ isExpInvTagged cats t = true ∧
      dateLe t.date endOfViewMonthStr = true
    then t.amount else 0)
  - (if t.ttype = TransactionType.EXPENSE ∧ t.categoryId = none ∧
      dateLe t.date endOfViewMonthStr = true
    then t.amount else 0)

def specUnallocatedPoolAsOf (txs : List Transaction) (cats : List Category)
    (endOfViewMonthStr : String) (openingBalance : ℚ) : ℚ :=
  openingBalance + (txs.map (specPoolContribution cats endOfViewMonthStr)).sum

lemma dateLt_false_iff (a b : String) : dateLt a b = false ↔ dateLe b a = true := by
  rw [dateLt_eq_not_dateLe]
  cases dateLe b a <;> simp

lemma isGrossIncomeTx_iff (cats : List Category) (e : String) (t : Transaction) :
    isGrossIncomeTx cats e t = true ↔
      (t.ttype = TransactionType.INCOME ∧ legacySystemTx t.description = false ∧
       (t.categoryId = none ∨ isIncomeTypeTagged cats t = true) ∧
       dateLe t.date e = true) := by
  unfold isGrossIncomeTx
  by_cases hty : t.ttype = TransactionType.INCOME
  · rw [if_neg (not_not.mpr hty)]
    rcases hdate : dateLt e t.date with _ | _
    · rw [if_neg (by simp)]
      rcases hleg : legacySystemTx t.description with _ | _
      · rw [if_neg (by simp)]
        have hd : dateLe t.date e = true := (dateLt_false_iff e t.date).mp hdate
        rcases hcid : t.categoryId with _ | cid
        · simp [hty, hleg, hd]
        · unfold isIncomeTypeTagged
          rw [hcid]
          rcases hfind : cats.find? (fun c => c.id = cid) with _ | c
          · simp [hty, hleg, hd]
          · simp [hty, hleg, hd]
      · rw [if_pos (by simp [hleg])]
        simp [hleg]
    · rw [if_pos (by simp [hdate])]
      have : dateLe t.date e = false := by
        rw [dateLt_eq_not_dateLe] at hdate
        cases h : dateLe t.date e
        · rfl
        · rw [h] at hdate; simp at hdate
      simp [this]
  · rw [if_pos (by simpa using hty)]
    simp [hty]

lemma isAllocatedTx_iff (cats : List Category) (e : String) (t : Transaction) :
    isAllocatedTx cats e t = true ↔
      (t.ttype = TransactionType.INCOME ∧ isExpInvTagged cats t = true ∧
       dateLe t.date e = true) := by
  unfold isAllocatedTx
  by_cases hty : t.ttype = TransactionType.INCOME
  · rw [if_neg (not_not.mpr hty)]
    rcases hdate : dateLt e t.date with _ | _
    · have hd : dateLe t.date e = true := (dateLt_false_iff e t.date).mp hdate
      unfold isExpInvTagged
      rcases hcid : t.categoryId with _ | cid
      · simp [hty, hd]
      · rcases hfind : cats.find? (fun c => c.id = cid) with _ | c
        · simp [hty, hd]
        · simp [hty, hd]
    · rw [if_pos (by simp [hdate])]
      have : dateLe t.date e = false := by
        rw [dateLt_eq_not_dateLe] at hdate
        cases h : dateLe t.date e
        · rfl
        · rw [h] at hdate; simp at hdate
      simp [this]
  · rw [if_pos (by simpa using hty)]
    simp [hty]

lemma isUncategorizedExpenseTx_iff (e : String) (t : Transaction) :
    isUncategorizedExpenseTx e t = true ↔
      (t.ttype = TransactionType.EXPENSE ∧ t.categoryId = none ∧
       dateLe t.date e = true) := by
  unfold isUncategorizedExpenseTx
  simp [and_assoc]

lemma contribution_eq (cats : List Category) (e : String) (t : Transaction) :
    (if isGrossIncomeTx cats e t then t.amount else 0)
      - (if isAllocatedTx cats e t then t.amount else 0)
      - (if isUncategorizedExpenseTx e t then t.amount else 0)
      = specPoolContribution cats e t := by
  unfold specPoolContribution
  rw [if_congr (isGrossIncomeTx_iff cats e t) rfl rfl,
    if_congr (isAllocatedTx_iff cats e t) rfl rfl,
    if_congr (isUncategorizedExpenseTx_iff e t) rfl rfl]

lemma sumAmountsBy_cons (p : Transaction → Bool) (t : Transaction)
    (ts : List Transaction) :
    sumAmountsBy p (t :: ts) = (if p t then t.amount else 0) + sumAmountsBy p ts := by
  by_cases h : p t
  · simp [sumAmountsBy, List.filter_cons, h]
  · simp [sumAmountsBy, List.filter_cons, h]

lemma specSums_eq (txs : List Transaction) (cats : List Category) (e : String) :
    sumAmountsBy (isGrossIncomeTx cats e) txs - sumAmountsBy (isAllocatedTx cats e) txs
      - sumAmountsBy (isUncategorizedExpenseTx e) txs
      = (txs.map (specPoolContribution cats e)).sum := by
  induction txs with
  | nil => simp [sumAmountsBy]
  | cons t ts ih =>
      rw [sumAmountsBy_cons, sumAmountsBy_cons, sumAmountsBy_cons,
        List.map_cons, List.sum_cons, ← contribution_eq cats e t]
      linarith

/-- C4 counterexample: a single income transaction dated after the view
month's end.  The dashboard pool ignores it (its sums stop at the view
month's end), while the claim's formula — which has no date restriction —
counts it. -/
theorem C4_unallocated_pool_counterexample :
    totalUnallocatedAvailable
        [{ id := "i1", date := "2024-02-05", amount := 5, ttype := .INCOME }] []
        "2024-01-31" 0
      ≠ specUnallocatedPool
        [{ id := "i1", date := "2024-02-05", amount := 5, ttype := .INCOME }] [] 0 := by
  have h1 : totalUnallocatedAvailable
      [{ id := "i1", date := "2024-02-05", amount := 5, ttype := .INCOME }] []
      "2024-01-31" 0 = 0 := by
    simp +decide [totalUnallocatedAvailable, sumAmountsBy, isGrossIncomeTx,
      isAllocatedTx, isUncategorizedExpenseTx]
  have h2 : specUnallocatedPool
      [{ id := "i1", date := "2024-02-05", amount := 5, ttype := .INCOME }] [] 0 = 5 := by
    simp +decide [specUnallocatedPool, legacySystemTx, isIncomeTypeTagged,
      isExpInvTagged]
  rw [h1, h2]
  norm_num

/-- C4 (amended): the dashboard pool equals the claim's formula restricted to
transactions dated at or before the end of the viewed month. -/
theorem C4_unallocated_pool_amended (txs : List Transaction) (cats : List Category)
    (endOfViewMonthStr : String) (openingBalance : ℚ) :
    totalUnallocatedAvailable txs cats endOfViewMonthStr openingBalance
      = specUnallocatedPoolAsOf txs cats endOfViewMonthStr openingBalance := by
  unfold totalUnallocatedAvailable specUnallocatedPoolAsOf
  have := specSums_eq txs cats endOfViewMonthStr
  linarith

/-- Outcome record of the one-time-expense handler: the resulting ledger and
category list, plus the insufficient-funds report (required remainder versus
available pool) when the operation is rejected. -/
structure OneTimeOutcome where
  transactions : List Transaction
  categories : List Category
  insufficient : Option (ℚ × ℚ)
deriving Repr

/-- ASCII lowering of a character (models `toLowerCase` on the names used). -/
def lowerChar (c : Char) : Char :=
  if 65 ≤ c.toNat ∧ c.toNat ≤ 90 then Char.ofNat (c.toNat + 32) else c

def lowerStr (s : String) : String := ⟨s.data.map lowerChar⟩

/-- Debit-from-source transactions of the one-time expense: one negative
INCOME entry per funding source with a positive amount. -/
def oneTimeSourceTxsAux (ids : Nat → String) (oneTimeDate oneTimeDesc : String) :
    Nat → List (String × ℚ) → List Transaction
  | _, [] => []
  | i, (catId, val) :: rest =>
      if val ≤ 0 then oneTimeSourceTxsAux ids oneTimeDate oneTimeDesc (i + 1) rest
      else
        { id := ids i, date := oneTimeDate,
          description := "Moved for One-Time: " ++ oneTimeDesc,
          amount := -val, categoryId := some catId, ttype := .INCOME }
          :: oneTimeSourceTxsAux ids oneTimeDate oneTimeDesc (i + 1) rest

/-- `handleCreateOneTimeExpense` from the dashboard component: reject
non-positive amounts; reject with an insufficient-funds report when the
remainder needed from the pool exceeds the pool by more than 0.01; otherwise
debit each funding source, find or create the "Other Expenses" category, and
record the expense there. -/
def handleCreateOneTimeExpense (ids : Nat → String) (cats : List Category)
    (txs : List Transaction) (pool : ℚ) (oneTimeDesc : String)
    (oneTimeAmount : ℚ) (oneTimeDate : String)
    (fundingSources : List (String × ℚ)) : OneTimeOutcome :=
  if oneTimeAmount ≤ 0 then ⟨txs, cats, none⟩
  else
    let totalFunded := (fundingSources.map (·.2)).sum
    let remainderFromPool := max 0 (oneTimeAmount - totalFunded)
    if remainderFromPool > pool + 1/100 then
      ⟨txs, cats, some (remainderFromPool, pool)⟩
    else
      let otherPair : Category × List Category :=
        match cats.find? (fun c => lowerStr c.name = "other expenses") with
        | some c => (c, cats)
        | none =>
            let newCat : Category :=
              { id := ids 0, name := "Other Expenses", ctype := .expense,
                monthlyBudget := 0, rollover := 0, color := "#64748b",
                startDate := some oneTimeDate, scheduledChanges := [],
                linkedPaymentIndex := none }
            (newCat, cats ++ [newCat])
      let sourceTxs := oneTimeSourceTxsAux ids oneTimeDate oneTimeDesc 1 fundingSources
      let sourceNames := String.intercalate ", "
        ((fundingSources.filter (fun p => 0 < p.2)).filterMap
          (fun p => (cats.find? (fun c => c.id = p.1)).map (·.name)))
      let finalDesc :=
        if sourceNames ≠ "" then
          oneTimeDesc ++ " (Funded by: " ++ sourceNames ++ ")"
        else oneTimeDesc
      let expenseTx : Transaction :=
        { id := ids (fundingSources.length + 1), date := oneTimeDate,
          description := finalDesc, amount := oneTimeAmount,
          ttype := .EXPENSE, categoryId := some otherPair.1.id }
      ⟨(sourceTxs ++ [expenseTx]) ++ txs, otherPair.2, none⟩

/-- C6: whenever the expense amount minus the envelope funding exceeds the
available pool by more than 0.01, the one-time-expense operation reports
insufficient funds (required remainder versus available pool) and leaves the
transaction list — and the category list — completely unchanged. -/
theorem C6_insufficient_funds_rejection (ids : Nat → String) (cats : List Category)
    (txs : List Transaction) (pool : ℚ) (oneTimeDesc : String)
    (oneTimeAmount : ℚ) (oneTimeDate : String)
    (fundingSources : List (String × ℚ))
    (hamt : 0 < oneTimeAmount)
    (hover : oneTimeAmount - (fundingSources.map (·.2)).sum > pool + 1/100) :
    (handleCreateOneTimeExpense ids cats txs pool oneTimeDesc oneTimeAmount
        oneTimeDate fundingSources).transactions = txs ∧
    (handleCreateOneTimeExpense ids cats txs pool oneTimeDesc oneTimeAmount
        oneTimeDate fundingSources).categories = cats ∧
    (handleCreateOneTimeExpense ids cats txs pool oneTimeDesc oneTimeAmount
        oneTimeDate fundingSources).insufficient
      = some (max 0 (oneTimeAmount - (fundingSources.map (·.2)).sum), pool) := by
  have hcond : max 0 (oneTimeAmount - (fundingSources.map (·.2)).sum) > pool + 1/100 :=
    lt_of_lt_of_le hover (le_max_right _ _)
  unfold handleCreateOneTimeExpense
  rw [if_neg (not_le.mpr hamt), if_pos hcond]
  exact ⟨rfl, rfl, rfl⟩

/-- Witness for C6: expense 100, envelopes cover 20, pool 50 ⇒ rejected with
required 80 versus available 50, ledger untouched. -/
theorem C6_insufficient_funds_rejection_witness :
    (handleCreateOneTimeExpense (fun n => toString n) [] [] 50 "tv" 100
        "2024-01-10" [("env", 20)]).transactions = [] ∧
    (handleCreateOneTimeExpense (fun n => toString n) [] [] 50 "tv" 100
        "2024-01-10" [("env", 20)]).insufficient = some (80, 50) := by
  obtain ⟨h1, h2, h3⟩ := C6_insufficient_funds_rejection (fun n => toString n) [] []
    50 "tv" 100 "2024-01-10" [("env", 20)] (by norm_num) (by norm_num)
  refine ⟨h1, ?_⟩
  rw [h3]
  norm_num

/-- A partial transaction (`Partial<Transaction>`): fields present in the
edit form override the original on save. -/
structure TransactionPatch where
  id : Option String := none
  date : Option String := none
  amount : Option ℚ := none
  description : Option String := none
  categoryId : Option (Option String) := none
  accountId : Option (Option String) := none
  ttype : Option TransactionType := none
  parentTransactionId : Option (Option String) := none
  transferPeerId : Option (Option String) := none
deriving Repr

/-- JavaScript spread `{ ...t, ...editForm }`. -/
def applyPatch (t : Transaction) (p : TransactionPatch) : Transaction :=
  { id := p.id.getD t.id, date := p.date.getD t.date,
    amount := p.amount.getD t.amount,
    description := p.description.getD t.description,
    categoryId := p.categoryId.getD t.categoryId,
    accountId := p.accountId.getD t.accountId,
    ttype := p.ttype.getD t.ttype,
    parentTransactionId := p.parentTransactionId.getD t.parentTransactionId,
    transferPeerId := p.transferPeerId.getD t.transferPeerId }

/-- `handleSaveEdit` from the Transactions page: merge the edit form into the
edited transaction; when the amount changed and the original amount was
nonzero, rescale every transaction parented to the edited one by
`newAmount / originalAmount`, rounded to two decimals. -/
def handleSaveEdit (txs : List Transaction) (editingId : String)
    (editForm : TransactionPatch) : List Transaction :=
  match txs.find? (fun t => t.id = editingId) with
  | none => txs
  | some original =>
      let newAmount := editForm.amount.getD original.amount
      let updated := txs.map (fun t =>
        if t.id = editingId then applyPatch t editForm else t)
      if original.amount ≠ newAmount ∧ original.amount ≠ 0 then
        updated.map (fun t =>
          if t.parentTransactionId = some editingId then
            { t with amount := round2 (t.amount * (newAmount / original.amount)) }
          else t)
      else updated

/-- C10: when a transaction is edited, every other transaction is mapped in
place: a child (parented to the edited id) has exactly its amount rescaled by
`newAmount / originalAmount` and rounded to two decimals — but only when the
amount actually changed and the original amount was nonzero — and every
transaction that is neither the edited one nor such a child is unchanged. -/
theorem C10_edit_rescales_children (txs : List Transaction) (editingId : String)
    (editForm : TransactionPatch) (original : Transaction)
    (hfind : txs.find? (fun t => t.id = editingId) = some original) :
    ∀ (i : Nat) (t : Transaction), txs[i]? = some t → t.id ≠ editingId →
      (handleSaveEdit txs editingId editForm)[i]?
        = some (if original.amount ≠ editForm.amount.getD original.amount
              ∧ original.amount ≠ 0
              ∧ t.parentTransactionId = some editingId
            then { t with amount := round2 (t.amount
              * (editForm.amount.getD original.amount / original.amount)) }
            else t) := by
  intro i t hti htne
  unfold handleSaveEdit
  rw [hfind]
  dsimp only
  by_cases hcond : original.amount ≠ editForm.amount.getD original.amount
      ∧ original.amount ≠ 0
  · rw [if_pos hcond]
    rw [List.getElem?_map, List.getElem?_map, hti]
    simp only [Option.map_some']
    rw [if_neg htne]
    by_cases hpar : t.parentTransactionId = some editingId
    · rw [if_pos hpar, if_pos ⟨hcond.1, hcond.2, hpar⟩]
    · rw [if_neg hpar, if_neg (by tauto)]
  · rw [if_neg hcond]
    rw [List.getElem?_map, hti]
    simp only [Option.map_some']
    rw [if_neg htne, if_neg (by tauto)]

/-- Witness for C10: editing the parent's amount from 10 to 20 rescales its
child from 4 to `round2 (4 * 2) = 8`. -/
theorem C10_edit_rescales_children_witness :
    (handleSaveEdit
        [{ id := "p", amount := 10, ttype := .EXPENSE },
         { id := "c", amount := 4, ttype := .INCOME,
           parentTransactionId := some "p" }]
        "p" { amount := some 20 })[1]?
      = some { id := "c", amount := 8, ttype := .INCOME,
               parentTransactionId := some "p" } := by
  have h := C10_edit_rescales_children
    [{ id := "p", amount := 10, ttype := .EXPENSE },
     { id := "c", amount := 4, ttype := .INCOME, parentTransactionId := some "p" }]
    "p" { amount := some 20 }
    { id := "p", amount := 10, ttype := .EXPENSE } rfl 1
    { id := "c", amount := 4, ttype := .INCOME, parentTransactionId := some "p" }
    rfl (by decide)
  rw [h, if_pos ⟨by norm_num, by norm_num, rfl⟩]
  norm_num [round2, round_eq]

/-- Exactly `k` digits from the front of the list (one backtracking-free step
of the `\d{k}` atom). -/
def takeDigits : Nat → List Char → Option (List Char × List Char)
  | 0, cs => some ([], cs)
  | _ + 1, [] => none
  | n + 1, c :: cs =>
      if c.isDigit then
        match takeDigits n cs with
        | some (ds, rest) => some (c :: ds, rest)
        | none => none
      else none

/-- The `[\/\-.]` separator atom. -/
def matchSep : List Char → Option (List Char)
  | [] => none
  | c :: cs => if c = '/' ∨ c = '-' ∨ c = '.' then some cs else none

/-- `\d{k}` then separator then `\d{4}`, returning the month and year
captures. -/
def matchMYwith (k : Nat) (cs : List Char) : Option (List Char × List Char) :=
  match takeDigits k cs with
  | none => none
  | some (m, r1) =>
      match matchSep r1 with
      | none => none
      | some r2 =>
          match takeDigits 4 r2 with
          | none => none
          | some (y, _) => some (m, y)

/-- Day capture of width `k`, then separator, then the month/year tail with
the greedy month width tried first (`\d{1,2}` backtracking order). -/
def matchDMYwith (k : Nat) (cs : List Char) :
    Option (List Char × List Char × List Char) :=
  match takeDigits k cs with
  | none => none
  | some (d, r1) =>
      match matchSep r1 with
      | none => none
      | some r2 =>
          match matchMYwith 2 r2 with
          | some (m, y) => some (d, m, y)
          | none =>
              match matchMYwith 1 r2 with
              | some (m, y) => some (d, m, y)
              | none => none

/-- One anchored attempt of `(\d{1,2})[\/\-.](\d{1,2})[\/\-.](\d{4})`, greedy
day width first. -/
def matchDMYAt (cs : List Char) : Option (List Char × List Char × List Char) :=
  match matchDMYwith 2 cs with
  | some r => some r
  | none => matchDMYwith 1 cs

/-- Unanchored leftmost search of the day-first date pattern, as
`String.prototype.match` scans. -/
def searchDMY : List Char → Option (List Char × List Char × List Char)
  | [] => none
  | c :: cs =>
      match matchDMYAt (c :: cs) with
      | some r => some r
      | none => searchDMY cs

/-- The anchored `^\d{4}-\d{2}-\d{2}$` test. -/
def isISODate (cs : List Char) : Bool :=
  match cs with
  | [a, b, c, d, e, f, g, h, i, j] =>
      a.isDigit && b.isDigit && c.isDigit && d.isDigit && decide (e = '-') &&
      f.isDigit && g.isDigit && decide (h = '-') && i.isDigit && j.isDigit
  | _ => false

/-- `parseInt` on a captured digit group. -/
def digitsToNat (ds : List Char) : Nat :=
  ds.foldl (fun acc c => 10 * acc + (c.toNat - 48)) 0

/-- `n.toString().padStart(2, '0')`. -/
def pad2 (n : Nat) : String := if n < 10 then "0" ++ toString n else toString n

/-- `parseDate` from the Transactions page: empty ⇒ today; `YYYY-MM-DD` kept
as-is; a `D/M/YYYY`-like match reassembled day-first; otherwise today. -/
def parseDate (str : String) (today : String) : String :=
  if str = "" then today
  else if isISODate str.data then str
  else
    match searchDMY str.data with
    | some (d, m, y) =>
        (⟨y⟩ : String) ++ "-" ++ pad2 (digitsToNat m) ++ "-" ++ pad2 (digitsToNat d)
    | none => today

inductive ImportMode where
  | single
  | split
deriving DecidableEq, Repr

structure CsvMapping where
  dateIndex : Nat
  descIndex : Nat
  mode : ImportMode
  amountIndex : Nat
  debitIndex : Nat
  creditIndex : Nat
deriving Repr

/-- Substring test (`String.prototype.includes`). -/
def hasSubChars : List Char → List Char → Bool
  | [], sub => decide (sub = [])
  | c :: t, sub => leadsChars sub (c :: t) || hasSubChars t sub

def strContains (s sub : String) : Bool := hasSubChars s.data sub.data

def isSpaceChar (c : Char) : Bool :=
  decide (c = ' ') || decide (c = '\t') || decide (c = '\n') || decide (c = '\r')

/-- `String.prototype.trim` (over the whitespace the data uses). -/
def trimStr (s : String) : String :=
  ⟨((s.data.dropWhile isSpaceChar).reverse.dropWhile isSpaceChar).reverse⟩

/-- `raw.replace(/[^0-9.-]/g, '')`. -/
def cleanAmountChars (s : String) : List Char :=
  s.data.filter (fun c => c.isDigit || decide (c = '.') || decide (c = '-'))

def takeWhileDigits : List Char → List Char × List Char
  | [] => ([], [])
  | c :: rest =>
      if c.isDigit then
        let (ds, r) := takeWhileDigits rest
        (c :: ds, r)
      else ([], c :: rest)

/-- `parseFloat` on a cleaned amount string (digits, dots and minus signs
only): optional leading minus, integer digits, optional fraction digits;
`none` models `NaN`. -/
def parseFloatQ (cs : List Char) : Option ℚ :=
  let sr : Bool × List Char :=
    match cs with
    | '-' :: r => (true, r)
    | _ => (false, cs)
  let ir := takeWhileDigits sr.2
  let fr : List Char :=
    match ir.2 with
    | '.' :: r2 => (takeWhileDigits r2).1
    | _ => []
  if ir.1 = [] ∧ fr = [] then none
  else
    let mag : ℚ := (digitsToNat ir.1 : ℚ) + (digitsToNat fr : ℚ) / ((10 : ℚ) ^ fr.length)
    some (if sr.1 then -mag else mag)

/-- The per-row body of `executeImport`: skip short rows, rows without date
or description cells, the header row, and rows with unparsable amounts;
resolve the amount sign (single mode) or the debit/credit columns (split
mode). -/
def importRow (mapping : CsvMapping) (historyMap : String → Option String)
    (today : String) (idx : Nat) (row : List String) (id : String) :
    Option Transaction :=
  if row.length < 2 then none
  else
    let rawDate := row.getD mapping.dateIndex ""
    let rawDesc := row.getD mapping.descIndex ""
    if rawDate = "" ∨ rawDesc = "" then none
    else
      let dateStr := parseDate rawDate today
      if strContains (lowerStr rawDate) "date" = true ∧ idx = 0 then none
      else
        match mapping.mode with
        | ImportMode.single =>
            let rawAmt := row.getD mapping.amountIndex ""
            if rawAmt = "" then none
            else
              match parseFloatQ (cleanAmountChars rawAmt) with
              | none => none
              | some cleanAmt =>
                  some { id := id, date := dateStr, description := rawDesc,
                         amount := |cleanAmt|,
                         ttype :=
                           if cleanAmt < 0 then TransactionType.EXPENSE
                           else if cleanAmt > 0 then TransactionType.INCOME
                           else TransactionType.EXPENSE,
                         categoryId := historyMap (trimStr (lowerStr rawDesc)) }
        | ImportMode.split =>
            let debitRaw := if row.getD mapping.debitIndex "" = "" then "0"
              else row.getD mapping.debitIndex ""
            let creditRaw := if row.getD mapping.creditIndex "" = "" then "0"
              else row.getD mapping.creditIndex ""
            let debitVal := parseFloatQ (cleanAmountChars debitRaw)
            let creditVal := parseFloatQ (cleanAmountChars creditRaw)
            if debitVal = none ∧ creditVal = none then none
            else if 0 < debitVal.getD 0 then
              some { id := id, date := dateStr, description := rawDesc,
                     amount := debitVal.getD 0, ttype := TransactionType.EXPENSE,
                     categoryId := historyMap (trimStr (lowerStr rawDesc)) }
            else if 0 < creditVal.getD 0 then
              some { id := id, date := dateStr, description := rawDesc,
                     amount := creditVal.getD 0, ttype := TransactionType.INCOME,
                     categoryId := historyMap (trimStr (lowerStr rawDesc)) }
            else none

lemma sep_not_digit {s : Char} (hs : s = '/' ∨ s = '-' ∨ s = '.') :
    s.isDigit = false := by
  rcases hs with rfl | rfl | rfl <;> decide

lemma takeDigits_two {c1 c2 : Char} {rest : List Char} (h1 : c1.isDigit = true)
    (h2 : c2.isDigit = true) :
    takeDigits 2 (c1 :: c2 :: rest) = some ([c1, c2], rest) := by
  simp [takeDigits, h1, h2]

lemma takeDigits_four {c1 c2 c3 c4 : Char} {rest : List Char}
    (h1 : c1.isDigit = true) (h2 : c2.isDigit = true) (h3 : c3.isDigit = true)
    (h4 : c4.isDigit = true) :
    takeDigits 4 (c1 :: c2 :: c3 :: c4 :: rest) = some ([c1, c2, c3, c4], rest) := by
  simp [takeDigits, h1, h2, h3, h4]

lemma matchSep_cons {s : Char} {rest : List Char}
    (hs : s = '/' ∨ s = '-' ∨ s = '.') : matchSep (s :: rest) = some rest := by
  unfold matchSep
  dsimp only
  rw [if_pos hs]

lemma string_mk_ne_empty {l : List Char} (h : l ≠ []) : (⟨l⟩ : String) ≠ "" := by
  intro he
  apply h
  have := congrArg String.data he
  simpa using this

lemma isISODate_dmy_false {d1 d2 m1 m2 y1 y2 y3 y4 s1 s2 : Char}
    (hs1 : s1 = '/' ∨ s1 = '-' ∨ s1 = '.') :
    isISODate [d1, d2, s1, m1, m2, s2, y1, y2, y3, y4] = false := by
  have h := sep_not_digit hs1
  simp [isISODate, h]

lemma searchDMY_dmy {d1 d2 m1 m2 y1 y2 y3 y4 s1 s2 : Char}
    (hd1 : d1.isDigit = true) (hd2 : d2.isDigit = true)
    (hm1 : m1.isDigit = true) (hm2 : m2.isDigit = true)
    (hy1 : y1.isDigit = true) (hy2 : y2.isDigit = true)
    (hy3 : y3.isDigit = true) (hy4 : y4.isDigit = true)
    (hs1 : s1 = '/' ∨ s1 = '-' ∨ s1 = '.') (hs2 : s2 = '/' ∨ s2 = '-' ∨ s2 = '.') :
    searchDMY [d1, d2, s1, m1, m2, s2, y1, y2, y3, y4]
      = some ([d1, d2], [m1, m2], [y1, y2, y3, y4]) := by
  have hmy : matchMYwith 2 [m1, m2, s2, y1, y2, y3, y4]
      = some ([m1, m2], [y1, y2, y3, y4]) := by
    unfold matchMYwith
    rw [takeDigits_two hm1 hm2]
    dsimp only
    rw [matchSep_cons hs2]
    dsimp only
    rw [takeDigits_four hy1 hy2 hy3 hy4]
  have hdmy : matchDMYwith 2 [d1, d2, s1, m1, m2, s2, y1, y2, y3, y4]
      = some ([d1, d2], [m1, m2], [y1, y2, y3, y4]) := by
    unfold matchDMYwith
    rw [takeDigits_two hd1 hd2]
    dsimp only
    rw [matchSep_cons hs1]
    dsimp only
    rw [hmy]
  unfold searchDMY matchDMYAt
  rw [hdmy]

/-- C9: the import normalizer (a) keeps a `YYYY-MM-DD` cell as-is, (b)
reinterprets a two-digit `D sep M sep YYYY` cell day-first for any of the
three separators, (c) does so on the concrete one-digit examples too, (d)
falls back to the current date on an unmatchable cell instead of aborting,
and (e) in single-amount mode turns a negative amount into an EXPENSE of its
absolute value and a positive amount into an INCOME. -/
theorem C9_import_normalizer :
    (∀ (a b c d f g i j : Char) (today : String),
      a.isDigit = true → b.isDigit = true → c.isDigit = true → d.isDigit = true →
      f.isDigit = true → g.isDigit = true → i.isDigit = true → j.isDigit = true →
      parseDate ⟨[a, b, c, d, '-', f, g, '-', i, j]⟩ today
        = ⟨[a, b, c, d, '-', f, g, '-', i, j]⟩) ∧
    (∀ (d1 d2 m1 m2 y1 y2 y3 y4 s1 s2 : Char) (today : String),
      d1.isDigit = true → d2.isDigit = true → m1.isDigit = true →
      m2.isDigit = true → y1.isDigit = true → y2.isDigit = true →
      y3.isDigit = true → y4.isDigit = true →
      (s1 = '/' ∨ s1 = '-' ∨ s1 = '.') → (s2 = '/' ∨ s2 = '-' ∨ s2 = '.') →
      parseDate ⟨[d1, d2, s1, m1, m2, s2, y1, y2, y3, y4]⟩ today
        = (⟨[y1, y2, y3, y4]⟩ : String) ++ "-" ++ pad2 (digitsToNat [m1, m2])
            ++ "-" ++ pad2 (digitsToNat [d1, d2])) ∧
    (∀ today : String,
      parseDate "03/04/2024" today = "2024-04-03" ∧
      parseDate "3.4.2024" today = "2024-04-03" ∧
      parseDate "12-5-2024" today = "2024-05-12") ∧
    (∀ today : String, parseDate "Coffee Shop" today = today) ∧
    (∀ (mapping : CsvMapping) (historyMap : String → Option String)
        (today : String) (idx : Nat) (row : List String) (id : String) (a : ℚ),
      mapping.mode = ImportMode.single →
      ¬ row.length < 2 →
      row.getD mapping.dateIndex "" ≠ "" →
      row.getD mapping.descIndex "" ≠ "" →
      ¬ (strContains (lowerStr (row.getD mapping.dateIndex "")) "date" = true
          ∧ idx = 0) →
      row.getD mapping.amountIndex "" ≠ "" →
      parseFloatQ (cleanAmountChars (row.getD mapping.amountIndex "")) = some a →
      ((a < 0 → importRow mapping historyMap today idx row id
          = some { id := id,
                   date := parseDate (row.getD mapping.dateIndex "") today,
                   description := row.getD mapping.descIndex "",
                   amount := |a|, ttype := TransactionType.EXPENSE,
                   categoryId := historyMap
                     (trimStr (lowerStr (row.getD mapping.descIndex ""))) }) ∧
       (0 < a → importRow mapping historyMap today idx row id
          = some { id := id,
                   date := parseDate (row.getD mapping.dateIndex "") today,
                   description := row.getD mapping.descIndex "",
                   amount := |a|, ttype := TransactionType.INCOME,
                   categoryId := historyMap
                     (trimStr (lowerStr (row.getD mapping.descIndex ""))) }))) := by
  refine ⟨?_, ?_, ?_, ?_, ?_⟩
  · intro a b c d f g i j today ha hb hc hd hf hg hi hj
    unfold parseDate
    rw [if_neg (string_mk_ne_empty (by simp))]
    rw [if_pos]
    show isISODate [a, b, c, d, '-', f, g, '-', i, j] = true
    simp +decide [isISODate, ha, hb, hc, hd, hf, hg, hi, hj]
  · intro d1 d2 m1 m2 y1 y2 y3 y4 s1 s2 today hd1 hd2 hm1 hm2 hy1 hy2 hy3 hy4 hs1 hs2
    unfold parseDate
    rw [if_neg (string_mk_ne_empty (by simp))]
    have hiso : isISODate (String.data ⟨[d1, d2, s1, m1, m2, s2, y1, y2, y3, y4]⟩)
        = false := isISODate_dmy_false hs1
    rw [if_neg (by simp [hiso])]
    have hsearch := searchDMY_dmy hd1 hd2 hm1 hm2 hy1 hy2 hy3 hy4 hs1 hs2
    show (match searchDMY [d1, d2, s1, m1, m2, s2, y1, y2, y3, y4] with
      | some (d, m, y) =>
          (⟨y⟩ : String) ++ "-" ++ pad2 (digitsToNat m) ++ "-" ++ pad2 (digitsToNat d)
      | none => today) = _
    rw [hsearch]
  · exact fun today => ⟨rfl, rfl, rfl⟩
  · exact fun today => rfl
  · intro mapping historyMap today idx row id a hmode hlen hdate hdesc hheader hamt hparse
    unfold importRow
    rw [if_neg hlen]
    rw [if_neg (not_or.mpr ⟨hdate, hdesc⟩), if_neg hheader, hmode]
    dsimp only
    rw [if_neg hamt, hparse]
    dsimp only
    constructor
    · intro hneg
      rw [if_pos hneg]
    · intro hpos
      rw [if_neg (not_lt.mpr (le_of_lt hpos)), if_pos hpos]

/-- Witness for C9 at the spec scenario: row
`"03/04/2024","Coffee Shop","-4.50"` in single-amount mode yields an EXPENSE
of 4.50 dated 2024-04-03. -/
theorem C9_import_normalizer_witness :
    parseDate "03/04/2024" "2099-01-01" = "2024-04-03" ∧
    importRow ⟨0, 1, ImportMode.single, 2, 2, 3⟩ (fun _ => none) "2099-01-01" 1
        ["03/04/2024", "Coffee Shop", "-4.50"] "t1"
      = some { id := "t1", date := "2024-04-03", description := "Coffee Shop",
               amount := 9/2, ttype := TransactionType.EXPENSE,
               categoryId := none } := by
  have hclean : cleanAmountChars "-4.50" = ['-', '4', '.', '5', '0'] := by decide
  have h3 : digitsToNat ['5', '0'] = 50 := by decide
  have h4 : digitsToNat ['4'] = 4 := by decide
  have h5 : parseFloatQ ['-', '4', '.', '5', '0']
      = some (-((digitsToNat ['4'] : ℚ) + (digitsToNat ['5', '0'] : ℚ) / 10 ^ 2)) :=
    rfl
  have hparse : parseFloatQ (cleanAmountChars "-4.50") = some (-(9/2)) := by
    rw [hclean, h5, h3, h4]
    norm_num
  constructor
  · exact (C9_import_normalizer.2.2.1 "2099-01-01").1
  · have h := (C9_import_normalizer.2.2.2.2 ⟨0, 1, ImportMode.single, 2, 2, 3⟩
      (fun _ => none) "2099-01-01" 1 ["03/04/2024", "Coffee Shop", "-4.50"] "t1"
      (-(9/2)) rfl (by norm_num) (by decide) (by decide) (by decide) (by decide)
      hparse).1 (by norm_num)
    rw [h]
    have habs : |(-(9/2) : ℚ)| = (9/2 : ℚ) := by norm_num
    rw [habs]
    rfl

end CashMap
